import Mathlib

/-!
Verification development for the content-publishing console
(`publish-post`, `optimize-content`, `save-seo`, `wp-posts` API routes).

Strings from the JavaScript source are embedded as `List Char`.  Regular
expression replacements from the source are embedded as structural
functions on character lists, written to follow the left-to-right,
leftmost-match, alternation-in-order semantics of JavaScript `replace`
with a global regex.  Network effects are embedded as explicit
environments (functions from request data to responses) and call traces.
-/

/-- JavaScript `\s` / `trim()` whitespace class (WhiteSpace ∪ LineTerminator). -/
def jsIsSpace (c : Char) : Bool :=
  c.toNat = 0x09 || c.toNat = 0x0A || c.toNat = 0x0B || c.toNat = 0x0C ||
  c.toNat = 0x0D || c.toNat = 0x20 || c.toNat = 0xA0 || c.toNat = 0x1680 ||
  (0x2000 ≤ c.toNat && c.toNat ≤ 0x200A) || c.toNat = 0x2028 || c.toNat = 0x2029 ||
  c.toNat = 0x202F || c.toNat = 0x205F || c.toNat = 0x3000 || c.toNat = 0xFEFF

/-- JavaScript `\w` word-character class `[A-Za-z0-9_]`. -/
def jsIsWordChar (c : Char) : Bool :=
  ('a' ≤ c && c ≤ 'z') || ('A' ≤ c && c ≤ 'Z') || ('0' ≤ c && c ≤ '9') || c = '_'

/-- Drop the trailing run of JS whitespace (right half of `String.prototype.trim`). -/
def dropTrailWs : List Char → List Char
  | [] => []
  | c :: cs =>
    match dropTrailWs cs with
    | [] => if jsIsSpace c then [] else [c]
    | r => c :: r

/-- JavaScript `String.prototype.trim()`. -/
def trimWS (l : List Char) : List Char :=
  dropTrailWs (l.dropWhile jsIsSpace)

/-- One step of `.replace(/\s+/g, ' ')`: `prevWs` records whether the previous
character belonged to a whitespace run already rewritten to a single space. -/
def collapseGo (prevWs : Bool) : List Char → List Char
  | [] => []
  | c :: cs =>
    if jsIsSpace c then
      if prevWs then collapseGo true cs else ' ' :: collapseGo true cs
    else c :: collapseGo false cs

/-- JavaScript `.replace(/\s+/g, ' ')`. -/
def collapseSpaces (l : List Char) : List Char := collapseGo false l

/-- Does the list contain a JS whitespace character? -/
def hasWs (l : List Char) : Bool := l.any jsIsSpace

/-- JavaScript `.replace(/\s+\S*$/, '')`: remove the last whitespace run and
everything after it; no-op when the string has no whitespace. -/
def dropTrailWordRun : List Char → List Char
  | [] => []
  | c :: cs =>
    if jsIsSpace c && !hasWs (cs.dropWhile jsIsSpace) then []
    else c :: dropTrailWordRun cs

/-- Worker for `.replace(/<[^>]*>/g, '')`.  `buf = some acc` means we are inside
a candidate tag opened by `<`, with the scanned characters held (reversed) in
`acc`; if the input ends before a `>` is found the candidate was not a match
and is emitted literally, exactly as the JavaScript regex leaves it. -/
def stGo (buf : Option (List Char)) : List Char → List Char
  | [] =>
    match buf with
    | none => []
    | some acc => acc.reverse
  | c :: cs =>
    match buf with
    | none => if c = '<' then stGo (some ['<']) cs else c :: stGo none cs
    | some acc => if c = '>' then stGo none cs else stGo (some (c :: acc)) cs

/-- JavaScript `.replace(/<[^>]*>/g, '')` (markup-tag stripping). -/
def stripTags (l : List Char) : List Char := stGo none l

/-- The literal `['`','`','`']` (three backticks). -/
def fence3 : List Char := ['\x60', '\x60', '\x60']

/-- The literal backtick fence with language tag: three backticks then `json`. -/
def fence7 : List Char := ['\x60', '\x60', '\x60', 'j', 's', 'o', 'n']

/-- Worker for `.replace(/\x60\x60\x60json\s*|\s*\x60\x60\x60/g, '')`, the
code-fence stripping applied to the generation response.  It emulates the JS
engine left to right: `wsBuf` holds (reversed) the current whitespace run, in
which alternative 2 (`\s*` then three backticks) may start; `skip` is true
while consuming the greedy `\s*` that ends alternative 1; `pend` counts
characters still to be consumed by a match already decided. -/
def sfGo (skip : Bool) (wsBuf : List Char) (pend : Nat) : List Char → List Char
  | [] => wsBuf.reverse
  | c :: cs =>
    match pend with
    | pn + 1 => sfGo skip wsBuf pn cs
    | 0 =>
      if jsIsSpace c then
        if skip then sfGo true [] 0 cs
        else sfGo skip (c :: wsBuf) 0 cs
      else if wsBuf ≠ [] && (c :: cs).take 3 = fence3 then
        sfGo false [] 2 cs
      else if (c :: cs).take 7 = fence7 then
        sfGo true [] 6 cs
      else if (c :: cs).take 3 = fence3 then
        sfGo false [] 2 cs
      else
        wsBuf.reverse ++ (c :: sfGo false [] 0 cs)

/-- JavaScript `.replace(/\x60\x60\x60json\s*|\s*\x60\x60\x60/g, '')` from
`optimizeWithAI`: remove every `\x60\x60\x60json` marker (with trailing
whitespace) and every whitespace-preceded closing fence. -/
def stripFences (l : List Char) : List Char := sfGo false [] 0 l

/-- `cleanedContent` from `optimizeWithAI`: strip code fences, then trim. -/
def cleanContent (l : List Char) : List Char := trimWS (stripFences l)

/-- Characters kept by the Pixabay query clean-up `.replace(/[^\w\s-]/g, '')`. -/
def pixabayKeep (c : Char) : Bool := jsIsWordChar c || jsIsSpace c || c = '-'

/-- The Pixabay query clean-up chain from `searchPixabay`:
`.replace(/[^\w\s-]/g, '').replace(/\s+/g, ' ').trim()` applied to the
already-trimmed query. -/
def pixabayClean (t : List Char) : List Char :=
  trimWS (collapseSpaces (t.filter pixabayKeep))

/-- The query finally passed to the Pixabay request: the cleaned query,
truncated by `substring(0, 100).replace(/\s+\S*$/, '')` when longer than 100
characters. -/
def pixabayNormalize (t : List Char) : List Char :=
  let c := pixabayClean t
  if 100 < c.length then dropTrailWordRun (c.take 100) else c

/-- A Pixabay hit: image URL fields as JS strings (empty string ∼ absent,
matching JS truthiness of `hit.largeImageURL`). -/
structure PixabayHit where
  largeImageURL : List Char
  webformatURL : List Char
  deriving DecidableEq, Repr

/-- Result of a successful image search (`{ url, source }`). -/
structure ImageResult where
  url : List Char
  source : List Char
  deriving DecidableEq, Repr

/-- Remote behaviour of the Pixabay API for one request. -/
inductive PixabayResp where
  | httpError
  | ok (hits : List PixabayHit)
  deriving DecidableEq, Repr

/-- Environment of `searchPixabay`: whether `PIXABAY_API_KEY` is configured,
and the remote response as a function of the (normalized) query sent. -/
structure PixabayEnv where
  hasKey : Bool
  respond : List Char → PixabayResp

/-- `searchPixabay(query)`.  Second component: the list of network requests
issued (the query string of each).  Returns `none` with no request when the
key is missing or the trimmed query is shorter than 3 characters; `none`
(after one request) on HTTP error or an empty hit list. -/
def searchPixabay (env : PixabayEnv) (query : List Char) :
    Option ImageResult × List (List Char) :=
  if !env.hasKey then (none, [])
  else
    let t := trimWS query
    if t.length < 3 then (none, [])
    else
      let q := pixabayNormalize t
      match env.respond q with
      | .httpError => (none, [q])
      | .ok [] => (none, [q])
      | .ok (h0 :: hs) =>
        let best := ((h0 :: hs).find? fun h => h.largeImageURL ≠ []).getD h0
        let url := if best.largeImageURL ≠ [] then best.largeImageURL else best.webformatURL
        (some ⟨url, ('P' :: 'i' :: 'x' :: 'a' :: 'b' :: 'a' :: 'y' :: [])⟩, [q])

/-- JSON values as produced by `JSON.parse`.  Numbers keep their source
lexeme (no arithmetic is ever performed on them in the embedded code paths);
object members are kept in source order and may repeat (lookup takes the last
binding, as `JSON.parse` does). -/
inductive Json where
  | jnull : Json
  | jbool : Bool → Json
  | jnum : List Char → Json
  | jstr : List Char → Json
  | jarr : List Json → Json
  | jobj : List (List Char × Json) → Json

/-- JSON insignificant whitespace (space, tab, line feed, carriage return). -/
def jsonIsWs (c : Char) : Bool :=
  c = ' ' || c = '\t' || c = '\n' || c = '\r'

/-- Value of a hexadecimal digit, by code point. -/
def hexDigit (c : Char) : Option Nat :=
  let n := c.toNat
  if 48 ≤ n && n ≤ 57 then some (n - 48)
  else if 97 ≤ n && n ≤ 102 then some (n - 87)
  else if 65 ≤ n && n ≤ 70 then some (n - 55)
  else none

/-- Parse the body of a JSON string after the opening quote; returns the
decoded contents and the remainder after the closing quote. -/
def parseStringBody : List Char → Option (List Char × List Char)
  | [] => none
  | c :: cs =>
    if c = '"' then some ([], cs)
    else if c = '\\' then
      match cs with
      | [] => none
      | e :: cs2 =>
        if e = 'u' then
          match cs2 with
          | h1 :: h2 :: h3 :: h4 :: cs3 =>
            match hexDigit h1, hexDigit h2, hexDigit h3, hexDigit h4 with
            | some v1, some v2, some v3, some v4 =>
              match parseStringBody cs3 with
              | some (s, r) =>
                some (Char.ofNat (((v1 * 16 + v2) * 16 + v3) * 16 + v4) :: s, r)
              | none => none
            | _, _, _, _ => none
          | _ => none
        else
          match
            (if e = '"' then some '"'
             else if e = '\\' then some '\\'
             else if e = '/' then some '/'
             else if e = 'b' then some (Char.ofNat 8)
             else if e = 'f' then some (Char.ofNat 12)
             else if e = 'n' then some '\n'
             else if e = 'r' then some '\r'
             else if e = 't' then some '\t'
             else none) with
          | some d =>
            match parseStringBody cs2 with
            | some (s, r) => some (d :: s, r)
            | none => none
          | none => none
    else if c.toNat < 32 then none
    else
      match parseStringBody cs with
      | some (s, r) => some (c :: s, r)
      | none => none

/-- Parse an optional JSON exponent part after the lexeme `pre`. -/
def parseExpPart (pre : List Char) (l : List Char) : Option (List Char × List Char) :=
  match l with
  | [] => some (pre, l)
  | e :: r =>
    if e = 'e' ∨ e = 'E' then
      let (es, r2) :=
        match r with
        | s :: r3 => if s = '+' ∨ s = '-' then ([e, s], r3) else (([e] : List Char), r)
        | [] => (([e] : List Char), r)
      let ed := r2.takeWhile Char.isDigit
      if ed = [] then none
      else some (pre ++ es ++ ed, r2.dropWhile Char.isDigit)
    else some (pre, l)

/-- Parse a JSON number, returning its lexeme and the remainder. -/
def parseNumber (l : List Char) : Option (List Char × List Char) :=
  let (sign, l1) :=
    match l with
    | '-' :: r => (['-'], r)
    | _ => (([] : List Char), l)
  match l1 with
  | [] => none
  | c :: _ =>
    if !c.isDigit then none
    else
      let (ip, l2) :=
        if c = '0' then (['0'], l1.tail)
        else (l1.takeWhile Char.isDigit, l1.dropWhile Char.isDigit)
      match l2 with
      | '.' :: r =>
        let fd := r.takeWhile Char.isDigit
        if fd = [] then none
        else parseExpPart (sign ++ ip ++ '.' :: fd) (r.dropWhile Char.isDigit)
      | _ => parseExpPart (sign ++ ip) l2

mutual

/-- Recursive-descent JSON value parser (fuel-indexed, structural). -/
def parseValue : Nat → List Char → Option (Json × List Char)
  | 0, _ => none
  | fuel + 1, l =>
    let l := l.dropWhile jsonIsWs
    match l with
    | [] => none
    | '{' :: r =>
      let r2 := r.dropWhile jsonIsWs
      match r2 with
      | '}' :: r3 => some (.jobj [], r3)
      | _ => parseMembers fuel r2 []
    | '[' :: r =>
      let r2 := r.dropWhile jsonIsWs
      match r2 with
      | ']' :: r3 => some (.jarr [], r3)
      | _ => parseElems fuel r2 []
    | '"' :: r =>
      match parseStringBody r with
      | some (s, r2) => some (.jstr s, r2)
      | none => none
    | 't' :: 'r' :: 'u' :: 'e' :: r => some (.jbool true, r)
    | 'f' :: 'a' :: 'l' :: 's' :: 'e' :: r => some (.jbool false, r)
    | 'n' :: 'u' :: 'l' :: 'l' :: r => some (.jnull, r)
    | c :: _ =>
      if c = '-' ∨ c.isDigit then
        match parseNumber l with
        | some (lex, r) => some (.jnum lex, r)
        | none => none
      else none

/-- Parse object members after `{` (at a key position). -/
def parseMembers : Nat → List Char → List (List Char × Json) →
    Option (Json × List Char)
  | 0, _, _ => none
  | fuel + 1, l, acc =>
    match l.dropWhile jsonIsWs with
    | '"' :: r =>
      match parseStringBody r with
      | some (k, r2) =>
        match r2.dropWhile jsonIsWs with
        | ':' :: r3 =>
          match parseValue fuel r3 with
          | some (v, r4) =>
            match r4.dropWhile jsonIsWs with
            | ',' :: r5 => parseMembers fuel r5 (acc ++ [(k, v)])
            | '}' :: r5 => some (.jobj (acc ++ [(k, v)]), r5)
            | _ => none
          | none => none
        | _ => none
      | none => none
    | _ => none

/-- Parse array elements after `[` (at an element position). -/
def parseElems : Nat → List Char → List Json → Option (Json × List Char)
  | 0, _, _ => none
  | fuel + 1, l, acc =>
    match parseValue fuel l with
    | some (v, r) =>
      match r.dropWhile jsonIsWs with
      | ',' :: r2 => parseElems fuel r2 (acc ++ [v])
      | ']' :: r2 => some (.jarr (acc ++ [v]), r2)
      | _ => none
    | none => none

end

/-- `JSON.parse`: parse one value and require only whitespace after it. -/
def jsonParse (l : List Char) : Option Json :=
  match parseValue (3 * l.length + 3) l with
  | some (v, rest) => if rest.dropWhile jsonIsWs = [] then some v else none
  | none => none

/-- Property read `obj[k]` on a parsed JSON object: last binding wins
(`JSON.parse` duplicate-key behaviour); `none` plays JS `undefined`. -/
def jgetField (j : Json) (k : List Char) : Option Json :=
  match j with
  | .jobj fs => fs.foldl (fun acc p => if p.1 = k then some p.2 else acc) none
  | _ => none

/-- JS property access `base.k` : throws (`error`) when `base` is `null`,
otherwise yields the field value or `undefined` (`none`). -/
def jsAccess (j : Json) (k : List Char) : Except Unit (Option Json) :=
  match j with
  | .jnull => .error ()
  | _ => .ok (jgetField j k)

/-- Is a JSON number lexeme the number zero (significand all zeros)? -/
def numIsZero (lex : List Char) : Bool :=
  let l1 := match lex with
            | '-' :: r => r
            | _ => lex
  let ip := l1.takeWhile Char.isDigit
  let rest := l1.dropWhile Char.isDigit
  let fp := match rest with
            | '.' :: r => r.takeWhile Char.isDigit
            | _ => []
  (ip ++ fp).all (· = '0')

/-- JavaScript truthiness of a parsed JSON value. -/
def jsTruthy (j : Json) : Bool :=
  match j with
  | .jnull => false
  | .jbool b => b
  | .jnum lex => !numIsZero lex
  | .jstr s => s ≠ []
  | .jarr _ => true
  | .jobj _ => true

/-- JS `x || d` for a possibly-undefined property value `x`. -/
def jsOr (x : Option Json) (d : Json) : Json :=
  match x with
  | some j => if jsTruthy j then j else d
  | none => d

/-- Is the value a JSON object? -/
def Json.isObj : Json → Bool
  | .jobj _ => true
  | _ => false

/-- "Ends mid-word": `res` is a strict prefix of `full` that stops between two
non-whitespace characters (the truncation cut a word in two). -/
def cutsMidWord (full res : List Char) : Bool :=
  match res.getLast?, (full.drop res.length).head? with
  | some a, some b => !jsIsSpace a && !jsIsSpace b
  | _, _ => false

/-- JavaScript exceptions thrown on the optimization path. -/
inductive JsError where
  | parseError
  | typeError
  deriving DecidableEq, Repr

/-- The result record built by `optimizeWithAI`.  Fields hold the JS runtime
values (parsed JSON or injected defaults), embedded as `Json`. -/
structure OptimizeResult where
  optimizedTitle : Json
  optimizedContent : Json
  suggestedImage : Json
  imageSource : Json
  keywords : Json
  seoScore : Json
  seoTitle : Json
  seoDescription : Json
  category : Json
  tags : Json
  detectedAuthor : Json

/-- The `searchPixabay(imageQuery)` call with a JS value as argument: with no
API key the function returns before touching the query (no throw); with a key
a non-string query crashes at `query.trim()`. -/
def searchPixabayJs (pix : PixabayEnv) (j : Json) :
    Except JsError (Option ImageResult × List (List Char)) :=
  if !pix.hasKey then .ok (none, [])
  else
    match j with
    | .jstr s => .ok (searchPixabay pix s)
    | _ => .error .typeError

/-- `'No image found'`. -/
def noImageFound : List Char := "No image found".data

/-- `imageResult?.url || ''` and `imageResult?.source || 'No image found'`. -/
def imgUrlOf (img : Option ImageResult) : List Char :=
  match img with
  | some r => r.url
  | none => []

def imgSourceOf (img : Option ImageResult) : List Char :=
  match img with
  | some r => if r.source ≠ [] then r.source else noImageFound
  | none => noImageFound

/-- `optimizeWithAI(title, content, excerpt)`.

Arguments beyond the three post fields embed the environment: whether
`OPENAI_API_KEY` is configured, the Pixabay environment, and the text content
of the (assumed successful) generation response.  The second component of a
successful result lists the arguments of the `searchPixabay` calls made. -/
def optimizeWithAI (hasOpenAIKey : Bool) (pix : PixabayEnv) (aiContent : List Char)
    (title content excerpt : List Char) :
    Except JsError (OptimizeResult × List Json) :=
  let query := trimWS (stripTags title)
  if !hasOpenAIKey then
    let img := (searchPixabay pix query).1
    .ok
      ({ optimizedTitle := .jstr (query ++ " - Enhanced".data)
         optimizedContent := .jstr content
         suggestedImage := .jstr (imgUrlOf img)
         imageSource := .jstr (imgSourceOf img)
         keywords := .jarr [.jstr query]
         seoScore := .jnum ['6', '5']
         seoTitle := .jstr (query.take 60)
         seoDescription := .jstr ((trimWS (stripTags excerpt)).take 160)
         category := .jstr "ai-technology".data
         tags := .jarr [.jstr "news".data, .jstr "update".data, .jstr "trending".data]
         detectedAuthor := .jstr "jmason".data }, [.jstr query])
  else
    match jsonParse (cleanContent aiContent) with
    | none => .error .parseError
    | some parsed =>
      match jsAccess parsed "imageDescription".data with
      | .error _ => .error .typeError
      | .ok idesc =>
        let imageQueryJ := jsOr idesc (.jstr query)
        match searchPixabayJs pix imageQueryJ with
        | .error e => .error e
        | .ok (img, _) =>
          .ok
            ({ optimizedTitle := jsOr (jgetField parsed "optimizedTitle".data) (.jstr title)
               optimizedContent := jsOr (jgetField parsed "optimizedContent".data) (.jstr content)
               suggestedImage := .jstr (imgUrlOf img)
               imageSource := .jstr (imgSourceOf img)
               keywords := jsOr (jgetField parsed "keywords".data) (.jarr [.jstr query])
               seoScore := jsOr (jgetField parsed "seoScore".data) (.jnum ['7', '0'])
               seoTitle := jsOr (jgetField parsed "seoTitle".data) (.jstr (query.take 60))
               seoDescription := jsOr (jgetField parsed "seoDescription".data)
                 (.jstr ((trimWS (stripTags excerpt)).take 160))
               category := jsOr (jgetField parsed "category".data) (.jstr "ai-technology".data)
               tags := jsOr (jgetField parsed "tags".data) (.jarr [.jstr "content".data])
               detectedAuthor := jsOr (jgetField parsed "recommendedAuthor".data)
                 (.jstr "john-mason".data) }, [imageQueryJ])

/-- HTTP-level response of an API route, reduced to success flag and status. -/
structure ApiResponse where
  success : Bool
  status : Nat
  deriving DecidableEq, Repr

/-- The `POST /api/optimize-content` handler: rejects a missing `OPENAI_API_KEY`
with a 400 before any optimization work; otherwise runs `optimizeWithAI` and
maps a thrown error to a 500 failure.  Second component: `searchPixabay`
invocation arguments (empty on every error path, since all throws happen
before or instead of the image search). -/
def optimizePOST (hasOpenAIKey : Bool) (pix : PixabayEnv) (aiContent : List Char)
    (title content excerpt : List Char) : ApiResponse × List Json :=
  if !hasOpenAIKey then ({ success := false, status := 400 }, [])
  else
    match optimizeWithAI true pix aiContent title content excerpt with
    | .ok (_, inv) => ({ success := true, status := 200 }, inv)
    | .error _ => ({ success := false, status := 500 }, [])

/-- Slugification from `getCategoryIdByName` / `getTagIdsByNames`:
`name.toLowerCase().replace(/[^a-z0-9-]/g, '-')`.  ASCII case mapping (the
slug alphabet is ASCII; any character left uppercase or exotic by the mapping
falls outside `[a-z0-9-]` and becomes `-` just as in the source). -/
def jsToLowerAscii (c : Char) : Char :=
  if 'A' ≤ c && c ≤ 'Z' then Char.ofNat (c.toNat + 32) else c

def isSlugChar (c : Char) : Bool :=
  ('a' ≤ c && c ≤ 'z') || ('0' ≤ c && c ≤ '9') || c = '-'

def slugify (name : List Char) : List Char :=
  (name.map jsToLowerAscii).map fun c => if isSlugChar c then c else '-'

/-- The slugification exactly as the specification words it: lower-case, then
replace every character outside `[a-z0-9-]` with `-` (one pass per character). -/
def specSlugify (name : List Char) : List Char :=
  name.map fun c =>
    let lc := jsToLowerAscii c
    if isSlugChar lc then lc else '-'

/-- `getCategoryIdByName(categoryName)`: slugify, then look the slug up in the
remote category table (`cats`); `none` models a failed request, an empty
result list, or a thrown transport error — no term is ever created. -/
def getCategoryIdByName (cats : List Char → Option Nat) (categoryName : List Char) :
    Option Nat :=
  cats (slugify categoryName)

/-- `getTagIdsByNames(tagNames)`: per-name slugified lookup; names with no
remote match contribute nothing. -/
def getTagIdsByNames (tags : List Char → Option Nat) : List (List Char) → List Nat
  | [] => []
  | n :: ns =>
    match tags (slugify n) with
    | some i => i :: getTagIdsByNames tags ns
    | none => getTagIdsByNames tags ns

/-- The `meta` object of the update payload (Rank Math keys, all four written
whenever the meta block is written at all). -/
structure MetaFields where
  rank_math_title : List Char
  rank_math_description : List Char
  rank_math_focus_keyword : List Char
  rank_math_score : List Char
  deriving DecidableEq, Repr

/-- The JSON body of the `PUT /wp/v2/posts/{id}` request built by
`updateWordPressPost`, after `JSON.stringify` (which drops `undefined`
values): `none` in an optional field means the key is absent from the body. -/
structure UpdateData where
  title : List Char
  content : List Char
  status : List Char
  featured_media : Option Nat
  author : Option Nat
  categories : Option (List Nat)
  tags : Option (List Nat)
  meta : Option MetaFields
  deriving DecidableEq, Repr

/-- The payload construction of `updateWordPressPost` (lines building
`updateData`).  `keywords` is the keyword list; `rank_math_focus_keyword`
takes `keywords?.[0] || ''`.  JS truthiness guards: a present author or
category id of `0` is not written; a present empty tag list is not written;
the meta block is written whenever at least one SEO argument is truthy
(`seoScore !== undefined` for the score). -/
def updateWordPressPostPayload (title content : List Char)
    (featuredMediaId authorId categoryId : Option Nat) (tagIds : Option (List Nat))
    (status : List Char) (seoTitle seoDescription : Option (List Char))
    (keywords : Option (List (List Char))) (seoScore : Option Nat) : UpdateData :=
  let metaWanted :=
    (match seoTitle with | some s => s ≠ [] | none => false) ||
    (match seoDescription with | some s => s ≠ [] | none => false) ||
    (match keywords with | some ks => 0 < ks.length | none => false) ||
    seoScore.isSome
  { title := title
    content := content
    status := status
    featured_media := featuredMediaId
    author := match authorId with
              | some a => if a ≠ 0 then some a else none
              | none => none
    categories := match categoryId with
                  | some c => if c ≠ 0 then some [c] else none
                  | none => none
    tags := match tagIds with
            | some ts => if 0 < ts.length then some ts else none
            | none => none
    meta :=
      if metaWanted then
        some
          { rank_math_title := (seoTitle.getD [])
            rank_math_description := (seoDescription.getD [])
            rank_math_focus_keyword := ((keywords.bind List.head?).getD [])
            rank_math_score := match seoScore with
                               | some n => (Nat.repr n).data
                               | none => [] }
      else none }

/-- Remote environment of the `publish-post` route. -/
structure PublishEnv where
  /-- fetching the image bytes at a URL: `none` = non-success or throw. -/
  imageFetch : List Char → Option (List Char)
  /-- uploading a fetched blob under a filename: `none` = non-success or throw. -/
  mediaUpload : List Char → List Char → Option (Nat × List Char)
  /-- `GET /wp/v2/users?slug=`: resolved id, `none` on miss/failure. -/
  userLookup : List Char → Option Nat
  /-- `GET /wp/v2/categories?slug=`. -/
  categoryLookup : List Char → Option Nat
  /-- `GET /wp/v2/tags?slug=`. -/
  tagLookup : List Char → Option Nat
  /-- outcome of the final `PUT /wp/v2/posts/{id}`. -/
  updateOk : Bool
  /-- the `Date.now()` timestamp used in the generated filename. -/
  nowStamp : List Char

/-- `uploadImageToWordPress(imageUrl, filename)`: fetch then upload; any
failure of either half yields `none` (logged and swallowed in the source). -/
def uploadImageToWordPress (env : PublishEnv) (imageUrl filename : List Char) :
    Option (Nat × List Char) :=
  match env.imageFetch imageUrl with
  | none => none
  | some blob => env.mediaUpload blob filename

/-- The body of a `publish-post` request (fields referenced by the handler). -/
structure PublishRequest where
  postId : Nat
  optimizedTitle : List Char
  optimizedContent : List Char
  suggestedImage : List Char
  detectedAuthorId : List Char
  seoTitle : Option (List Char)
  seoDescription : Option (List Char)
  keywords : Option (List (List Char))
  seoScore : Option Nat
  category : Option (List Char)
  tags : Option (List (List Char))
  publish : Bool

/-- Call trace of one `publish-post` invocation. -/
structure PublishTrace where
  /-- URL passed to `uploadImageToWordPress`, if stage 1 ran. -/
  uploadAttempted : Option (List Char)
  /-- slug passed to `getUserIdByName`, if the resolution stage ran. -/
  authorLookup : Option (List Char)
  /-- payload passed to the `PUT` update, if the update stage ran. -/
  updateCalled : Option UpdateData
  deriving DecidableEq, Repr

/-- Response data echoed by a successful `publish-post`. -/
structure PublishData where
  imageUrl : List Char
  featured_media_id : Option Nat
  author_id : Option Nat
  category_id : Option Nat
  tag_ids : List Nat
  deriving DecidableEq, Repr

/-- The `POST /api/publish-post` handler. -/
def publishPOST (creds : Bool) (env : PublishEnv) (req : PublishRequest) :
    (ApiResponse × Option PublishData) × PublishTrace :=
  if !creds then
    (({ success := false, status := 400 }, none),
     { uploadAttempted := none, authorLookup := none, updateCalled := none })
  else
    -- Step 1: upload image if provided (suggestedImage && suggestedImage.trim())
    let imgWanted := req.suggestedImage ≠ [] && trimWS req.suggestedImage ≠ []
    let filename :=
      "featured-image-".data ++ (Nat.repr req.postId).data ++ ('-' :: env.nowStamp) ++ ".jpg".data
    let uploadResult :=
      if imgWanted then uploadImageToWordPress env req.suggestedImage filename else none
    let featuredMediaId := uploadResult.map Prod.fst
    let uploadedImageUrl := uploadResult.map Prod.snd
    -- Step 2: resolve author, category, tags
    let authorId := env.userLookup req.detectedAuthorId
    let categoryId :=
      match req.category with
      | some c => if c ≠ [] then getCategoryIdByName env.categoryLookup c else none
      | none => none
    let tagIds :=
      match req.tags with
      | some ts => if 0 < ts.length then getTagIdsByNames env.tagLookup ts else []
      | none => []
    -- Step 3: update
    let payload :=
      updateWordPressPostPayload req.optimizedTitle req.optimizedContent
        featuredMediaId
        (match authorId with | some a => if a ≠ 0 then some a else none | none => none)
        categoryId
        (if 0 < tagIds.length then some tagIds else none)
        (if req.publish then "publish".data else "draft".data)
        req.seoTitle req.seoDescription req.keywords req.seoScore
    let tr : PublishTrace :=
      { uploadAttempted := if imgWanted then some req.suggestedImage else none
        authorLookup := some req.detectedAuthorId
        updateCalled := some payload }
    if env.updateOk then
      (({ success := true, status := 200 },
        some
          { imageUrl := (uploadedImageUrl.getD req.suggestedImage)
            featured_media_id := featuredMediaId
            author_id := authorId
            category_id := categoryId
            tag_ids := tagIds }), tr)
    else (({ success := false, status := 500 }, none), tr)

/-- Remote environment of the `save-seo` route. -/
structure SeoEnv where
  /-- outcome of the `yoast_head` title write. -/
  titleOk : Bool
  /-- outcome of the combined meta write. -/
  metaOk : Bool
  /-- outcome of each per-field fallback write, by meta key. -/
  fieldOk : List Char → Bool

/-- The body of a `save-seo` request. -/
structure SeoRequest where
  postId : Nat
  seoTitle : Option (List Char)
  seoDescription : Option (List Char)
  keyword : Option (List Char)
  seoScore : Option Nat
  deriving DecidableEq, Repr

/-- Data echoed by the `save-seo` response. -/
structure SeoData where
  postId : Nat
  seoTitle : Option (List Char)
  seoDescription : Option (List Char)
  keyword : Option (List Char)
  deriving DecidableEq, Repr

/-- JS truthiness of an optional string request field. -/
def optTruthy (o : Option (List Char)) : Bool :=
  match o with
  | some s => s ≠ []
  | none => false

/-- The `POST` handler of the SEO-save route.  First component: the HTTP
response (status, success flag, echoed data).  Second component: the trace of
remote writes attempted (meta keys of the per-field fallback round).  The
remote is assumed to answer the combined write with a JSON body (the handler
always awaits `updateResponse.json()`); per-field responses are only logged,
and per-field throws are caught in the loop. -/
def seoSavePOST (creds : Bool) (env : SeoEnv) (req : SeoRequest) :
    (ApiResponse × Option SeoData) × List (List Char) :=
  if !creds then (({ success := false, status := 400 }, none), [])
  else if req.postId = 0 then (({ success := false, status := 400 }, none), [])
  else
    let metaFields : List (List Char) :=
      (if optTruthy req.seoTitle then ["_yoast_wpseo_title".data] else []) ++
      (if optTruthy req.seoDescription then ["_yoast_wpseo_metadesc".data] else []) ++
      (if optTruthy req.keyword then ["_yoast_wpseo_focuskw".data] else [])
    let fallbackWrites := if env.metaOk then [] else metaFields
    (({ success := true, status := 200 },
      some
        { postId := req.postId
          seoTitle := req.seoTitle
          seoDescription := req.seoDescription
          keyword := req.keyword }), fallbackWrites)

/-- A post as returned by the remote list endpoint; `titleRendered` embeds
`post.title?.rendered` (`none` when either level is missing) and `raw`
stands for the rest of the post payload. -/
structure WPPost where
  titleRendered : Option (List Char)
  raw : Nat
  deriving DecidableEq, Repr

/-- `post.title?.rendered || ''`, the deduplication key. -/
def titleKey (p : WPPost) : List Char := p.titleRendered.getD []

/-- The `posts.filter(...)` loop of the list route with its `seenTitles` set. -/
def dedupGo (seen : List (List Char)) : List WPPost → List WPPost
  | [] => []
  | p :: ps =>
    if titleKey p ∈ seen then dedupGo seen ps
    else p :: dedupGo (titleKey p :: seen) ps

/-- Deduplication by rendered title performed by the post-list route. -/
def dedupPosts (ps : List WPPost) : List WPPost := dedupGo [] ps

/-- Is an `Except` computation a success? -/
def isOkE {e a : Type} : Except e a → Bool
  | .ok _ => true
  | .error _ => false

/-- Wrap a payload in code-fence markup: three backticks + `json`, newline,
payload, newline, three backticks. -/
def wrapJson (p : List Char) : List Char :=
  fence7 ++ ('\n' :: p) ++ ('\n' :: fence3)

/-- The character list of the JSON text `{"a":1}`. -/
def sampleObj : List Char := ['\x7b', '"', 'a', '"', ':', '1', '\x7d']

/-- A Pixabay environment with no API key configured. -/
def pixNoKey : PixabayEnv := ⟨false, fun _ => .httpError⟩

/-- A Pixabay environment whose remote always answers with an HTTP error. -/
def pixHttpErr : PixabayEnv := ⟨true, fun _ => .httpError⟩

/-- A publish environment whose image fetch always fails and whose remote
lookups and final update succeed. -/
def samplePublishEnv : PublishEnv :=
  { imageFetch := fun _ => none
    mediaUpload := fun _ _ => some (77, "u".data)
    userLookup := fun _ => some 3
    categoryLookup := fun _ => some 4
    tagLookup := fun _ => some 5
    updateOk := true
    nowStamp := "1700000000000".data }

/-- A concrete publish request with a non-blank suggested image. -/
def samplePublishReq : PublishRequest :=
  { postId := 9
    optimizedTitle := "T".data
    optimizedContent := "C".data
    suggestedImage := "https://img.example/x.jpg".data
    detectedAuthorId := "jmason".data
    seoTitle := some "S".data
    seoDescription := none
    keywords := none
    seoScore := none
    category := some "AI & Robotics".data
    tags := some ["a b".data]
    publish := false }

/-- SEO-save environment in which every remote write fails. -/
def seoEnvAllFail : SeoEnv := ⟨false, false, fun _ => false⟩

/-- SEO-save environment in which every remote write succeeds. -/
def seoEnvAllOk : SeoEnv := ⟨true, true, fun _ => true⟩

section Lemmas

theorem dropTrailWs_eq_nil_of_all (l : List Char) (h : ∀ c ∈ l, jsIsSpace c) :
    dropTrailWs l = [] := by
  induction l with
  | nil => rfl
  | cons c cs ih =>
    have hc : jsIsSpace c := h c (List.mem_cons_self ..)
    have : dropTrailWs cs = [] := ih fun x hx => h x (List.mem_cons_of_mem _ hx)
    simp [dropTrailWs, this, hc]

theorem dropTrailWs_ne_nil (l : List Char) (h : ¬ ∀ c ∈ l, jsIsSpace c) :
    dropTrailWs l ≠ [] := by
  induction l with
  | nil => simp at h
  | cons c cs ih =>
    by_cases hall : ∀ x ∈ cs, jsIsSpace x
    · have hcs : dropTrailWs cs = [] := dropTrailWs_eq_nil_of_all cs hall
      have hc : ¬ jsIsSpace c = true := by
        intro hc
        apply h
        intro x hx
        rcases List.mem_cons.mp hx with h1 | h2
        · exact h1 ▸ hc
        · exact hall x h2
      simp [dropTrailWs, hcs, hc]
    · have hcs := ih hall
      rcases hne : dropTrailWs cs with _ | ⟨r, rs⟩
      · exact absurd hne hcs
      · simp [dropTrailWs, hne]

theorem dropTrailWs_cons_of_ne_nil (c : Char) (cs : List Char)
    (h : dropTrailWs cs ≠ []) : dropTrailWs (c :: cs) = c :: dropTrailWs cs := by
  rcases hne : dropTrailWs cs with _ | ⟨r, rs⟩
  · exact absurd hne h
  · simp [dropTrailWs, hne]

theorem dropTrailWs_idem (l : List Char) : dropTrailWs (dropTrailWs l) = dropTrailWs l := by
  induction l with
  | nil => rfl
  | cons c cs ih =>
    rcases hne : dropTrailWs cs with _ | ⟨r, rs⟩
    · by_cases hc : jsIsSpace c <;> simp [dropTrailWs, hne, hc]
    · have h1 : dropTrailWs cs ≠ [] := by rw [hne]; simp
      have h2 : dropTrailWs (dropTrailWs cs) ≠ [] := by rwa [ih]
      rw [dropTrailWs_cons_of_ne_nil _ _ h1, dropTrailWs_cons_of_ne_nil _ _ h2, ih]

end Lemmas

section TrimLemmas

theorem dropWhile_head_not (p : Char → Bool) (l : List Char) (c : Char) (cs : List Char)
    (h : l.dropWhile p = c :: cs) : p c = false := by
  induction l with
  | nil => simp at h
  | cons a l ih =>
    by_cases ha : p a
    · rw [List.dropWhile_cons_of_pos ha] at h; exact ih h
    · rw [List.dropWhile_cons_of_neg ha] at h
      cases h
      simpa using ha

theorem dropTrailWs_decomp (l : List Char) : ∃ r, l = dropTrailWs l ++ r := by
  induction l with
  | nil => exact ⟨[], rfl⟩
  | cons c cs ih =>
    rcases ih with ⟨r, hr⟩
    rcases hne : dropTrailWs cs with _ | ⟨x, xs⟩
    · by_cases hc : jsIsSpace c
      · exact ⟨c :: cs, by simp [dropTrailWs, hne, hc]⟩
      · exact ⟨cs, by simp [dropTrailWs, hne, hc]⟩
    · refine ⟨r, ?_⟩
      rw [dropTrailWs_cons_of_ne_nil c cs (by rw [hne]; simp), List.cons_append, ← hr]

theorem trimWS_head_not_ws (l : List Char) (c : Char) (cs : List Char)
    (h : trimWS l = c :: cs) : jsIsSpace c = false := by
  unfold trimWS at h
  rcases dropTrailWs_decomp (l.dropWhile jsIsSpace) with ⟨r, hr⟩
  rw [h] at hr
  exact dropWhile_head_not jsIsSpace l c (cs ++ r) (by simpa using hr)

theorem trimWS_idem (l : List Char) : trimWS (trimWS l) = trimWS l := by
  have hdw : (trimWS l).dropWhile jsIsSpace = trimWS l := by
    rcases he : trimWS l with _ | ⟨c, cs⟩
    · rfl
    · rw [List.dropWhile_cons_of_neg]
      simp [trimWS_head_not_ws l c cs he]
  conv_lhs => rw [trimWS]
  rw [hdw]
  conv_lhs => rw [trimWS]
  rw [dropTrailWs_idem]
  rfl

end TrimLemmas

section FenceLemmas

theorem take3_head (c : Char) (cs : List Char) (h : (c :: cs).take 3 = fence3) :
    c = '\x60' := by
  simp [List.take, fence3] at h
  exact h.1

theorem take7_head (c : Char) (cs : List Char) (h : (c :: cs).take 7 = fence7) :
    c = '\x60' := by
  simp [List.take, fence7] at h
  exact h.1

/-- Unfolding equation of `sfGo` at `pend = 0` on a cons cell. -/
theorem sfGo_cons (skip : Bool) (wsBuf : List Char) (c : Char) (cs : List Char) :
    sfGo skip wsBuf 0 (c :: cs) =
      if jsIsSpace c then
        if skip then sfGo true [] 0 cs else sfGo skip (c :: wsBuf) 0 cs
      else if wsBuf ≠ [] && (c :: cs).take 3 = fence3 then sfGo false [] 2 cs
      else if (c :: cs).take 7 = fence7 then sfGo true [] 6 cs
      else if (c :: cs).take 3 = fence3 then sfGo false [] 2 cs
      else wsBuf.reverse ++ (c :: sfGo false [] 0 cs) := rfl

/-- On input without backticks `sfGo` flushes its buffer and copies. -/
theorem sfGo_no_backtick (l : List Char) (hb : '\x60' ∉ l) :
    ∀ wsBuf : List Char, sfGo false wsBuf 0 l = wsBuf.reverse ++ l := by
  induction l with
  | nil => intro wsBuf; simp [sfGo]
  | cons c cs ih =>
    intro wsBuf
    have hc : c ≠ '\x60' := fun h => hb (h ▸ List.mem_cons_self ..)
    have hcs : '\x60' ∉ cs := fun h => hb (List.mem_cons_of_mem _ h)
    have h3 : ¬ (c :: cs).take 3 = fence3 := fun h => hc (take3_head c cs h)
    have h7 : ¬ (c :: cs).take 7 = fence7 := fun h => hc (take7_head c cs h)
    rw [sfGo_cons]
    by_cases hws : jsIsSpace c
    · simp only [hws, if_true]
      rw [ih hcs (c :: wsBuf)]
      simp
    · simp only [hws, if_false, h3, h7, decide_False, Bool.and_false, if_false]
      rw [ih hcs []]
      simp

end FenceLemmas

section FenceMain

theorem dropTrailWs_nil_iff (l : List Char) :
    dropTrailWs l = [] ↔ ∀ c ∈ l, jsIsSpace c := by
  constructor
  · intro h
    by_contra hall
    exact dropTrailWs_ne_nil l hall h
  · exact dropTrailWs_eq_nil_of_all l

/-- `sfGo` in normal mode on `q ++ "\n" ++ fence`: the newline joins the
trailing whitespace run of `q` (if any) and the closing fence consumes it. -/
theorem sfGo_closing (q : List Char) (hb : '\x60' ∉ q) :
    ∀ wsBuf : List Char,
      sfGo false wsBuf 0 (q ++ ('\n' :: fence3)) =
        if ∀ c ∈ q, jsIsSpace c then [] else wsBuf.reverse ++ dropTrailWs q := by
  induction q with
  | nil =>
    intro wsBuf
    simp [sfGo, dropTrailWs, jsIsSpace, fence3]
  | cons c cs ih =>
    intro wsBuf
    have hc : c ≠ '\x60' := fun h => hb (h ▸ List.mem_cons_self ..)
    have hcs : '\x60' ∉ cs := fun h => hb (List.mem_cons_of_mem _ h)
    rw [List.cons_append, sfGo_cons]
    by_cases hws : jsIsSpace c
    · simp only [hws, if_true]
      rw [ih hcs (c :: wsBuf)]
      by_cases hall : ∀ x ∈ cs, jsIsSpace x
      · have : ∀ x ∈ c :: cs, jsIsSpace x := by
          intro x hx
          rcases List.mem_cons.mp hx with h1 | h2
          · exact h1 ▸ hws
          · exact hall x h2
        rw [if_pos hall, if_pos this]
        simp
      · have hnall : ¬ ∀ x ∈ c :: cs, jsIsSpace x := by
          intro h
          exact hall fun x hx => h x (List.mem_cons_of_mem _ hx)
        rw [if_neg hall, if_neg hnall,
            dropTrailWs_cons_of_ne_nil c cs (dropTrailWs_ne_nil cs hall)]
        simp
    · have h3 : ¬ (c :: (cs ++ ('\n' :: fence3))).take 3 = fence3 :=
        fun h => hc (take3_head _ _ h)
      have h7 : ¬ (c :: (cs ++ ('\n' :: fence3))).take 7 = fence7 :=
        fun h => hc (take7_head _ _ h)
      simp only [hws, if_false, h3, h7, decide_False, Bool.and_false, if_false]
      rw [ih hcs []]
      have hnall : ¬ ∀ x ∈ c :: cs, jsIsSpace x := by
        intro h
        exact hws (h c (List.mem_cons_self ..))
      rw [if_neg hnall]
      by_cases hall : ∀ x ∈ cs, jsIsSpace x
      · rw [if_pos hall]
        have hnil : dropTrailWs cs = [] := dropTrailWs_eq_nil_of_all cs hall
        simp [dropTrailWs, hnil, hws]
      · rw [if_neg hall,
            dropTrailWs_cons_of_ne_nil c cs (dropTrailWs_ne_nil cs hall)]
        simp
end FenceMain

section FenceSkip

/-- `sfGo` in skip mode (inside the greedy `\s*` of a matched `json` fence)
on `q ++ "\n" ++ fence`: the result is exactly `q.trim()`. -/
theorem sfGo_skip_closing (q : List Char) (hb : '\x60' ∉ q) :
    sfGo true [] 0 (q ++ ('\n' :: fence3)) = trimWS q := by
  induction q with
  | nil => simp [sfGo, trimWS, dropTrailWs, jsIsSpace, fence3]
  | cons c cs ih =>
    have hc : c ≠ '\x60' := fun h => hb (h ▸ List.mem_cons_self ..)
    have hcs : '\x60' ∉ cs := fun h => hb (List.mem_cons_of_mem _ h)
    rw [List.cons_append, sfGo_cons]
    by_cases hws : jsIsSpace c
    · simp only [hws, if_true, if_true]
      rw [ih hcs]
      unfold trimWS
      rw [List.dropWhile_cons_of_pos hws]
    · have h3 : ¬ (c :: (cs ++ ('\n' :: fence3))).take 3 = fence3 :=
        fun h => hc (take3_head _ _ h)
      have h7 : ¬ (c :: (cs ++ ('\n' :: fence3))).take 7 = fence7 :=
        fun h => hc (take7_head _ _ h)
      simp only [hws, if_false, h3, h7, decide_False, Bool.and_false, if_false]
      rw [sfGo_closing cs hcs []]
      unfold trimWS
      rw [List.dropWhile_cons_of_neg hws]
      by_cases hall : ∀ x ∈ cs, jsIsSpace x
      · have hnil : dropTrailWs cs = [] := dropTrailWs_eq_nil_of_all cs hall
        simp [hall, dropTrailWs, hnil, hws]
      · rw [if_neg hall,
            dropTrailWs_cons_of_ne_nil c cs (dropTrailWs_ne_nil cs hall)]
        simp

/-- Fence stripping of a fenced backtick-free payload yields the trimmed
payload. -/
theorem stripFences_wrapJson (p : List Char) (hb : '\x60' ∉ p) :
    stripFences (wrapJson p) = trimWS p := by
  show sfGo true [] 0 (p ++ ('\n' :: fence3)) = trimWS p
  exact sfGo_skip_closing p hb

/-- Fence stripping is the identity on backtick-free text. -/
theorem stripFences_no_backtick (p : List Char) (hb : '\x60' ∉ p) :
    stripFences p = p := by
  show sfGo false [] 0 p = p
  rw [sfGo_no_backtick p hb []]
  rfl

end FenceSkip

section ClaimC7

/-- C7, claim as stated, refuted: for the payload `" ⋯json {"a":1}"` (a space,
then a backtick fence with `json` tag, then an object), parsing the unwrapped
payload fails — the leading `\s*`-plus-fence match eats only the backticks and
leaves the letters `json` in front of the object — while parsing the same
payload wrapped in code-fence markup succeeds and yields the object.  So
fence-stripping composed with parsing is not invariant under fencing. -/
theorem fence_strip_not_invariant_counterexample :
    jsonParse (cleanContent (' ' :: (fence7 ++ (' ' :: sampleObj)))) = none ∧
    jsonParse (cleanContent (wrapJson (' ' :: (fence7 ++ (' ' :: sampleObj))))) =
      some (Json.jobj [(['a'], Json.jnum ['1'])]) :=
  ⟨rfl, rfl⟩

/-- C7 (amended): for every generation payload that contains no backtick
character, wrapping it in code-fence markup and then cleaning yields exactly
the cleaned unwrapped payload (so parsing gives identical results). -/
theorem fence_strip_invariant_of_no_backtick (p : List Char) (hb : '\x60' ∉ p) :
    cleanContent (wrapJson p) = cleanContent p := by
  unfold cleanContent
  rw [stripFences_wrapJson p hb, stripFences_no_backtick p hb, trimWS_idem]

/-- Witness for the amended C7 at the concrete payload `{"a":1}`. -/
theorem fence_strip_invariant_witness :
    cleanContent (wrapJson sampleObj) = cleanContent sampleObj :=
  fence_strip_invariant_of_no_backtick sampleObj (by decide)

end ClaimC7

section ClaimC5

theorem dropTrailWordRun_length_le (l : List Char) :
    (dropTrailWordRun l).length ≤ l.length := by
  induction l with
  | nil => simp [dropTrailWordRun]
  | cons c cs ih =>
    by_cases h : (jsIsSpace c && !hasWs (cs.dropWhile jsIsSpace)) = true
    · simp [dropTrailWordRun, h]
    · simp only [dropTrailWordRun]
      rw [if_neg h]
      simp only [List.length_cons]
      omega

theorem dropTrailWordRun_split (l : List Char) (h : hasWs l = true) :
    ∃ b rs, l = dropTrailWordRun l ++ (b :: rs) ∧ jsIsSpace b = true := by
  induction l with
  | nil => simp [hasWs] at h
  | cons c cs ih =>
    by_cases hcut : (jsIsSpace c && !hasWs (cs.dropWhile jsIsSpace)) = true
    · refine ⟨c, cs, ?_, ?_⟩
      · simp [dropTrailWordRun, hcut]
      · exact (Bool.and_elim_left hcut)
    · have hkeep : dropTrailWordRun (c :: cs) = c :: dropTrailWordRun cs := by
        simp [dropTrailWordRun, hcut]
      have hcs : hasWs cs = true := by
        by_cases hws : jsIsSpace c
        · have hdw : hasWs (cs.dropWhile jsIsSpace) = true := by
            rcases Bool.and_eq_true_iff.mpr with _
            by_contra hno
            exact hcut (by simp [hws, Bool.eq_false_iff.mpr hno]
                           )
          rcases List.any_eq_true.mp hdw with ⟨x, hxmem, hx⟩
          exact List.any_eq_true.mpr
            ⟨x, List.Sublist.mem hxmem (List.dropWhile_sublist _), hx⟩
        · rcases List.any_eq_true.mp h with ⟨x, hxmem, hx⟩
          rcases List.mem_cons.mp hxmem with h1 | h2
          · exact absurd (h1 ▸ hx) (by simpa using hws)
          · exact List.any_eq_true.mpr ⟨x, h2, hx⟩
      rcases ih hcs with ⟨b, rs, hsplit, hb⟩
      exact ⟨b, rs, by rw [hkeep, List.cons_append, ← hsplit], hb⟩

theorem cutsMidWord_of_ws_at_cut (full res : List Char) (b : Char) (tail2 : List Char)
    (hdrop : (full.drop res.length) = b :: tail2) (hb : jsIsSpace b = true) :
    cutsMidWord full res = false := by
  unfold cutsMidWord
  rw [hdrop]
  rcases res.getLast? with _ | a
  · rfl
  · simp [hb]

theorem cutsMidWord_self (full : List Char) : cutsMidWord full full = false := by
  unfold cutsMidWord
  rw [List.drop_length]
  rcases full.getLast? with _ | a <;> rfl

/-- C5 (amended): for every image query whose trimmed form is longer than 100
characters, the normalized query passed to the search service is at most 100
characters long, and — whenever the first 100 characters of the cleaned query
contain any whitespace (i.e. there is a word boundary to back off to) — it
does not end mid-word.  (When those 100 characters are a single unbroken word
the code cuts at exactly 100 characters mid-word; see the counterexample.) -/
theorem pixabay_truncation_backoff (q : List Char)
    (_hlong : 100 < (trimWS q).length) :
    (pixabayNormalize (trimWS q)).length ≤ 100 ∧
    (hasWs ((pixabayClean (trimWS q)).take 100) = true →
      cutsMidWord (pixabayClean (trimWS q)) (pixabayNormalize (trimWS q)) = false) := by
  set t := trimWS q with ht
  set cl := pixabayClean t with hcl
  by_cases hlen : 100 < cl.length
  · have hnorm : pixabayNormalize t = dropTrailWordRun (cl.take 100) := by
      simp [pixabayNormalize, ← hcl, hlen]
    constructor
    · rw [hnorm]
      calc (dropTrailWordRun (cl.take 100)).length
          ≤ (cl.take 100).length := dropTrailWordRun_length_le _
        _ ≤ 100 := by simp
    · intro hws
      rcases dropTrailWordRun_split (cl.take 100) hws with ⟨b, rs, hsplit, hb⟩
      have hres : cl.drop (pixabayNormalize t).length =
          b :: (rs ++ cl.drop 100) := by
        conv_lhs => rw [← List.take_append_drop 100 cl, hsplit, hnorm]
        rw [List.append_assoc, List.cons_append, List.drop_left]
      exact cutsMidWord_of_ws_at_cut _ _ b _ hres hb
  · have hnorm : pixabayNormalize t = cl := by
      simp [pixabayNormalize, ← hcl, hlen]
    constructor
    · rw [hnorm]; omega
    · intro _
      rw [hnorm]
      exact cutsMidWord_self cl

set_option maxRecDepth 40000 in
/-- Witness for the amended C5: a 121-character query made of a 60-letter
word, a space and a 60-letter word is truncated to the first word — 60
characters, ending at the word boundary, not mid-word. -/
theorem pixabay_truncation_backoff_witness :
    (pixabayNormalize (trimWS (List.replicate 60 'a' ++ (' ' :: List.replicate 60 'b')))).length ≤ 100 ∧
    cutsMidWord
      (pixabayClean (trimWS (List.replicate 60 'a' ++ (' ' :: List.replicate 60 'b'))))
      (pixabayNormalize (trimWS (List.replicate 60 'a' ++ (' ' :: List.replicate 60 'b')))) = false := by
  have h := pixabay_truncation_backoff
    (List.replicate 60 'a' ++ (' ' :: List.replicate 60 'b')) (by decide)
  exact ⟨h.1, h.2 (by decide)⟩

set_option maxRecDepth 80000 in
/-- C5, claim as stated, refuted: the query of 150 letters `a` has trimmed
length 150 > 100, but the normalized query actually passed to the search
service (second component of `searchPixabay` with an erroring remote) is the
first 100 letters — which ends mid-word, since there is no earlier word
boundary to back off to. -/
theorem pixabay_truncation_counterexample :
    100 < (trimWS (List.replicate 150 'a')).length ∧
    (searchPixabay pixHttpErr (List.replicate 150 'a')).2 = [List.replicate 100 'a'] ∧
    cutsMidWord (pixabayClean (trimWS (List.replicate 150 'a')))
      (pixabayNormalize (trimWS (List.replicate 150 'a'))) = true := by
  refine ⟨by decide, by decide, by decide⟩

end ClaimC5

section ClaimC9

/-- C9: `searchPixabay` returns `none` and issues no network request (empty
request trace) whenever the image-search credential is missing, and likewise
for every query whose trimmed form is shorter than 3 characters; both paths
simply return (no exception is possible — the embedding is a total function
returning before the request is built). -/
theorem searchPixabay_short_or_no_key (env : PixabayEnv) (q : List Char) :
    (env.hasKey = false → searchPixabay env q = (none, [])) ∧
    ((trimWS q).length < 3 → searchPixabay env q = (none, [])) := by
  constructor
  · intro h
    simp [searchPixabay, h]
  · intro h
    by_cases hk : env.hasKey
    · simp [searchPixabay, hk, h]
    · simp [searchPixabay, hk]

/-- Witness for C9: concrete no-key and short-query calls. -/
theorem searchPixabay_short_or_no_key_witness :
    searchPixabay pixNoKey "mountain lake".data = (none, []) ∧
    searchPixabay pixHttpErr " ab ".data = (none, []) :=
  ⟨(searchPixabay_short_or_no_key pixNoKey _).1 rfl,
   (searchPixabay_short_or_no_key pixHttpErr _).2 (by decide)⟩

end ClaimC9

section ClaimC2

/-- C2, claim as stated, refuted: with no generation credential configured,
the optimize endpoint does not degrade gracefully — it rejects the request
with a 400 failure before invoking the optimizer, and performs zero image
search calls (the claim requires a degraded success result and exactly one
image search using the bare title). -/
theorem optimize_endpoint_fails_without_key :
    optimizePOST false pixHttpErr [] "My Post Title".data "body".data "excerpt".data =
      ({ success := false, status := 400 }, []) := rfl

/-- C2 (amended): the internal `optimizeWithAI`, when invoked with no
generation credential, does degrade gracefully for every input: it returns a
deterministic result whose `seoTitle` is a string of length ≤ 60 and whose
`seoDescription` is a string of length ≤ 160, and it performs exactly one
image search invocation whose argument is the bare (tag-stripped, trimmed)
title.  The `POST /api/optimize-content` handler, however, guards on the
credential first and never reaches this fallback. -/
theorem optimizeWithAI_fallback_degrades (pix : PixabayEnv)
    (aiContent title content excerpt : List Char) :
    ∃ r : OptimizeResult,
      optimizeWithAI false pix aiContent title content excerpt =
        .ok (r, [.jstr (trimWS (stripTags title))]) ∧
      (∃ s, r.seoTitle = .jstr s ∧ s.length ≤ 60) ∧
      (∃ d, r.seoDescription = .jstr d ∧ d.length ≤ 160) := by
  refine ⟨_, rfl, ⟨_, rfl, ?_⟩, ⟨_, rfl, ?_⟩⟩
  · rw [List.length_take]
    exact min_le_left _ _
  · rw [List.length_take]
    exact min_le_left _ _

end ClaimC2

section ClaimC6

/-- C6 (amended): whenever the generation response text is not valid JSON
after fence stripping, optimization is a hard error for that post: the
optimizer throws a parse error (it never substitutes the fallback result),
and the endpoint reports the post as failed with a 500. -/
theorem optimize_parse_failure_is_hard_error (pix : PixabayEnv)
    (aiContent title content excerpt : List Char)
    (h : jsonParse (cleanContent aiContent) = none) :
    optimizeWithAI true pix aiContent title content excerpt = .error .parseError ∧
    optimizePOST true pix aiContent title content excerpt =
      ({ success := false, status := 500 }, []) := by
  refine ⟨?_, ?_⟩
  · simp [optimizeWithAI, h]
  · simp [optimizePOST, optimizeWithAI, h]

/-- Witness for the amended C6 at a concrete non-JSON response. -/
theorem optimize_parse_failure_witness :
    optimizeWithAI true pixNoKey "no".data "T".data "C".data "E".data =
      .error .parseError ∧
    optimizePOST true pixNoKey "no".data "T".data "C".data "E".data =
      ({ success := false, status := 500 }, []) :=
  optimize_parse_failure_is_hard_error pixNoKey "no".data "T".data "C".data "E".data rfl

/-- C6, claim as stated, refuted: the response text `42` is not a valid JSON
object after fence stripping (it parses as a bare JSON number), yet
optimization is not a hard error for the post: `JSON.parse` succeeds, every
field of the bare number reads as `undefined`, the result degrades to the
default values (e.g. the original title and the fallback SEO score 70), and
the endpoint reports success. -/
theorem optimize_nonobject_json_not_error :
    jsonParse (cleanContent ['4', '2']) = some (Json.jnum ['4', '2']) ∧
    Json.isObj (Json.jnum ['4', '2']) = false ∧
    (∃ r, optimizeWithAI true pixNoKey ['4', '2'] ['T'] ['C'] ['E'] =
        .ok (r, [Json.jstr ['T']]) ∧
      r.optimizedTitle = Json.jstr ['T'] ∧ r.seoScore = Json.jnum ['7', '0']) ∧
    optimizePOST true pixNoKey ['4', '2'] ['T'] ['C'] ['E'] =
      ({ success := true, status := 200 }, [Json.jstr ['T']]) :=
  ⟨rfl, rfl, ⟨_, rfl, rfl, rfl⟩, rfl⟩

end ClaimC6

section ClaimC4

theorem dedupGo_sublist (seen : List (List Char)) (ps : List WPPost) :
    (dedupGo seen ps).Sublist ps := by
  induction ps generalizing seen with
  | nil => simp [dedupGo]
  | cons p ps ih =>
    by_cases h : titleKey p ∈ seen
    · simp only [dedupGo, if_pos h]
      exact (ih seen).cons p
    · simp only [dedupGo, if_neg h]
      exact (ih (titleKey p :: seen)).cons₂ p

theorem dedupGo_not_mem_seen (seen : List (List Char)) (ps : List WPPost)
    (p : WPPost) (hp : p ∈ dedupGo seen ps) : titleKey p ∉ seen := by
  induction ps generalizing seen with
  | nil => simp [dedupGo] at hp
  | cons q qs ih =>
    by_cases h : titleKey q ∈ seen
    · rw [dedupGo, if_pos h] at hp
      exact ih seen hp
    · rw [dedupGo, if_neg h] at hp
      rcases List.mem_cons.mp hp with h1 | h2
      · exact h1 ▸ h
      · intro hmem
        exact ih (titleKey q :: seen) h2 (List.mem_cons_of_mem _ hmem)

theorem dedupGo_titles_nodup (seen : List (List Char)) (ps : List WPPost) :
    ((dedupGo seen ps).map titleKey).Nodup := by
  induction ps generalizing seen with
  | nil => simp [dedupGo]
  | cons q qs ih =>
    by_cases h : titleKey q ∈ seen
    · rw [dedupGo, if_pos h]
      exact ih seen
    · rw [dedupGo, if_neg h]
      rw [List.map_cons, List.nodup_cons]
      refine ⟨?_, ih (titleKey q :: seen)⟩
      intro hmem
      rcases List.mem_map.mp hmem with ⟨r, hr, hrt⟩
      exact dedupGo_not_mem_seen _ _ r hr (hrt ▸ List.mem_cons_self ..)

theorem dedupGo_first_occurrence (seen : List (List Char)) (ps : List WPPost)
    (p : WPPost) (hp : p ∈ dedupGo seen ps) :
    ∃ l1 l2, ps = l1 ++ p :: l2 ∧
      ∀ r ∈ l1, titleKey r ∈ seen ∨ titleKey r ≠ titleKey p := by
  induction ps generalizing seen with
  | nil => simp [dedupGo] at hp
  | cons q qs ih =>
    by_cases h : titleKey q ∈ seen
    · rw [dedupGo, if_pos h] at hp
      rcases ih seen hp with ⟨l1, l2, hsplit, hfirst⟩
      refine ⟨q :: l1, l2, by rw [hsplit]; rfl, ?_⟩
      intro r hr
      rcases List.mem_cons.mp hr with h1 | h2
      · exact Or.inl (h1 ▸ h)
      · exact hfirst r h2
    · rw [dedupGo, if_neg h] at hp
      rcases List.mem_cons.mp hp with h1 | h2
      · exact ⟨[], qs, by rw [h1]; rfl, by simp⟩
      · rcases ih (titleKey q :: seen) h2 with ⟨l1, l2, hsplit, hfirst⟩
        have hpnot := dedupGo_not_mem_seen _ _ p h2
        refine ⟨q :: l1, l2, by rw [hsplit]; rfl, ?_⟩
        intro r hr
        rcases List.mem_cons.mp hr with h1 | hrl
        · right
          intro heq
          exact hpnot (by rw [← heq, h1]; exact List.mem_cons_self ..)
        · rcases hfirst r hrl with hin | hne
          · rcases List.mem_cons.mp hin with ha | hb
            · right
              intro heq
              exact hpnot (by rw [← heq, ha]; exact List.mem_cons_self ..)
            · exact Or.inl hb
          · exact Or.inr hne

theorem dedupGo_stable (seen : List (List Char)) (l : List WPPost)
    (hnd : (l.map titleKey).Nodup) (hseen : ∀ p ∈ l, titleKey p ∉ seen) :
    dedupGo seen l = l := by
  induction l generalizing seen with
  | nil => rfl
  | cons p ps ih =>
    have hp : titleKey p ∉ seen := hseen p (List.mem_cons_self ..)
    rw [dedupGo, if_neg hp]
    rw [List.map_cons, List.nodup_cons] at hnd
    congr 1
    apply ih (titleKey p :: seen) hnd.2
    intro q hq hmem
    rcases List.mem_cons.mp hmem with h1 | h2
    · exact hnd.1 (h1 ▸ List.mem_map_of_mem titleKey hq)
    · exact hseen q (List.mem_cons_of_mem _ hq) h2

/-- C4: deduplication of a post-list response by rendered title.  The result
is a subsequence of the response; its rendered titles are pairwise distinct
(so two entries with identical titles never both survive); every surviving
entry is the first occurrence of its title in response order; and the
deduplication is idempotent — applying it twice yields the same unique set as
applying it once. -/
theorem dedupPosts_first_occurrence_and_idempotent (ps : List WPPost) :
    (dedupPosts ps).Sublist ps ∧
    ((dedupPosts ps).map titleKey).Nodup ∧
    (∀ p ∈ dedupPosts ps,
      ∃ l1 l2, ps = l1 ++ p :: l2 ∧ ∀ r ∈ l1, titleKey r ≠ titleKey p) ∧
    dedupPosts (dedupPosts ps) = dedupPosts ps := by
  refine ⟨dedupGo_sublist [] ps, dedupGo_titles_nodup [] ps, ?_, ?_⟩
  · intro p hp
    rcases dedupGo_first_occurrence [] ps p hp with ⟨l1, l2, hsplit, hfirst⟩
    refine ⟨l1, l2, hsplit, ?_⟩
    intro r hr
    rcases hfirst r hr with hin | hne
    · simp at hin
    · exact hne
  · exact dedupGo_stable [] (dedupGo [] ps) (dedupGo_titles_nodup [] ps)
      (fun p _ => by simp)

/-- Witness for C4 at a concrete response with a duplicated rendered title:
the second duplicate is dropped and only the first occurrence survives. -/
theorem dedupPosts_witness :
    dedupPosts [⟨some ['t'], 1⟩, ⟨some ['t'], 2⟩, ⟨some ['u'], 3⟩] =
      [⟨some ['t'], 1⟩, ⟨some ['u'], 3⟩] ∧
    (∃ l1 l2,
      ([⟨some ['t'], 1⟩, ⟨some ['t'], 2⟩, ⟨some ['u'], 3⟩] : List WPPost) =
        l1 ++ (⟨some ['t'], 1⟩ : WPPost) :: l2 ∧
      ∀ r ∈ l1, titleKey r ≠ titleKey (⟨some ['t'], 1⟩ : WPPost)) ∧
    dedupPosts (dedupPosts [⟨some ['t'], 1⟩, ⟨some ['t'], 2⟩, ⟨some ['u'], 3⟩]) =
      dedupPosts [⟨some ['t'], 1⟩, ⟨some ['t'], 2⟩, ⟨some ['u'], 3⟩] := by
  refine ⟨by decide, ?_, ?_⟩
  · exact (dedupPosts_first_occurrence_and_idempotent _).2.2.1 _ (by decide)
  · exact (dedupPosts_first_occurrence_and_idempotent _).2.2.2

end ClaimC4

section ClaimC8

theorem slugify_eq_spec (name : List Char) : slugify name = specSlugify name := by
  unfold slugify specSlugify
  rw [List.map_map]
  rfl

theorem getTagIds_eq_filterMap (env : List Char → Option Nat) (ts : List (List Char)) :
    getTagIdsByNames env ts = ts.filterMap fun t => env (specSlugify t) := by
  induction ts with
  | nil => rfl
  | cons t ts ih =>
    rcases h : env (specSlugify t) with _ | i
    · rw [getTagIdsByNames, slugify_eq_spec, h, ih]
      simp [List.filterMap_cons, h]
    · rw [getTagIdsByNames, slugify_eq_spec, h, ih]
      simp [List.filterMap_cons, h]

/-- C8: category resolution slugifies the name exactly as the claim words it
— lower-case every character and replace each character outside `[a-z0-9-]`
with `-` — and looks up exactly that slug, answering whatever the remote
table answers (so a miss yields none; no write is modelled because the code
performs only `GET` lookups).  Tag resolution applies the same slugification
per name, silently omitting misses.  In particular `"AI & Robotics"` is
looked up as the slug `"ai---robotics"`. -/
theorem category_and_tag_resolution_by_slug (env tagEnv : List Char → Option Nat)
    (name : List Char) (ts : List (List Char)) :
    getCategoryIdByName env name = env (specSlugify name) ∧
    getTagIdsByNames tagEnv ts = ts.filterMap (fun t => tagEnv (specSlugify t)) ∧
    slugify "AI & Robotics".data = "ai---robotics".data := by
  refine ⟨?_, getTagIds_eq_filterMap tagEnv ts, by decide⟩
  unfold getCategoryIdByName
  rw [slugify_eq_spec]

end ClaimC8

section ClaimC1

/-- C1, claim as stated, refuted: in a call of `updateWordPressPost` that
supplies `seoTitle` but omits `seoDescription`, the keyword list and the SEO
score, the PUT body nevertheless carries all four Rank Math meta keys, the
omitted three as empty strings — so an omitted optional field is written as
empty over whatever value the remote post had. -/
theorem updatePost_omitted_seo_written_empty :
    updateWordPressPostPayload ['T'] ['C'] none none none none "draft".data
        (some ['S']) none none none =
      { title := ['T'], content := ['C'], status := "draft".data,
        featured_media := none, author := none, categories := none, tags := none,
        meta := some { rank_math_title := ['S'], rank_math_description := [],
                       rank_math_focus_keyword := [], rank_math_score := [] } } := rfl

/-- C1 (amended): the top-level optional fields behave as the claim states —
an omitted (or empty) tag list puts no `tags` key in the body, so existing
remote tags are not cleared, and omitted author / category / featured-media
are not written at all; when no SEO field is supplied no `meta` key is
written either.  But the SEO meta block is all-or-nothing: as soon as one SEO
field is supplied (here a non-empty `seoTitle`), all four Rank Math keys are
written, the omitted ones as empty strings, overwriting existing remote
values. -/
theorem updatePost_frame (title content status : List Char)
    (fm au cat : Option Nat) (tg : Option (List Nat))
    (sT sD : Option (List Char)) (kw : Option (List (List Char))) (sc : Option Nat)
    (htg : tg = none ∨ tg = some []) (hau : au = none) (hcat : cat = none)
    (hfm : fm = none) :
    ((updateWordPressPostPayload title content fm au cat tg status sT sD kw sc).tags
        = none ∧
     (updateWordPressPostPayload title content fm au cat tg status sT sD kw sc).author
        = none ∧
     (updateWordPressPostPayload title content fm au cat tg status sT sD kw sc).categories
        = none ∧
     (updateWordPressPostPayload title content fm au cat tg status sT sD kw sc).featured_media
        = none) ∧
    (sT = none → sD = none → kw = none → sc = none →
      (updateWordPressPostPayload title content fm au cat tg status sT sD kw sc).meta
        = none) ∧
    (∀ s, sT = some s → s ≠ [] →
      (updateWordPressPostPayload title content fm au cat tg status sT sD kw sc).meta
        = some { rank_math_title := s, rank_math_description := sD.getD [],
                 rank_math_focus_keyword := (kw.bind List.head?).getD [],
                 rank_math_score := match sc with
                                    | some n => (Nat.repr n).data
                                    | none => [] }) := by
  subst hau hcat hfm
  refine ⟨⟨?_, rfl, rfl, rfl⟩, ?_, ?_⟩
  · rcases htg with h | h <;> simp [updateWordPressPostPayload, h]
  · intro h1 h2 h3 h4
    subst h1 h2 h3 h4
    rfl
  · intro s hs hne
    subst hs
    simp [updateWordPressPostPayload, hne]

/-- Witness for the amended C1: all-omitted call writes no optional key and
no meta; supplying only `seoTitle` writes the full meta block with empty
strings elsewhere. -/
theorem updatePost_frame_witness :
    (updateWordPressPostPayload ['T'] ['C'] none none none none "draft".data
        none none none none).tags = none ∧
    (updateWordPressPostPayload ['T'] ['C'] none none none none "draft".data
        none none none none).meta = none ∧
    (updateWordPressPostPayload ['T'] ['C'] none none none none "draft".data
        (some ['S']) none none none).meta =
      some { rank_math_title := ['S'], rank_math_description := [],
             rank_math_focus_keyword := [], rank_math_score := [] } := by
  refine ⟨?_, ?_, ?_⟩
  · exact (updatePost_frame ['T'] ['C'] "draft".data none none none none
      none none none none (Or.inl rfl) rfl rfl rfl).1.1
  · exact (updatePost_frame ['T'] ['C'] "draft".data none none none none
      none none none none (Or.inl rfl) rfl rfl rfl).2.1 rfl rfl rfl rfl
  · exact (updatePost_frame ['T'] ['C'] "draft".data none none none none
      (some ['S']) none none none (Or.inl rfl) rfl rfl rfl).2.2 ['S'] rfl (by decide)

end ClaimC1

section ClaimC3

/-- C3: with credentials present and a non-blank suggested image URL, a
failure of the media stage — the image fetch fails, or every upload attempt
fails (both of which make `uploadImageToWordPress` return none, covering
non-success statuses and transport errors alike) — never aborts the pipeline:
the upload is attempted, the reference-resolution stage still runs (the
author slug is looked up), the update stage is still called, its payload
carries no featured-media reference, and the request outcome is decided
solely by the update stage. -/
theorem publish_media_failure_nonfatal (env : PublishEnv) (req : PublishRequest)
    (himg : trimWS req.suggestedImage ≠ [])
    (hfail : env.imageFetch req.suggestedImage = none ∨
      ∀ blob fn, env.mediaUpload blob fn = none) :
    (publishPOST true env req).2.uploadAttempted = some req.suggestedImage ∧
    (publishPOST true env req).2.authorLookup = some req.detectedAuthorId ∧
    (∃ u, (publishPOST true env req).2.updateCalled = some u ∧
      u.featured_media = none) ∧
    (publishPOST true env req).1.1.success = env.updateOk := by
  have h1 : req.suggestedImage ≠ [] := by
    intro h
    exact himg (by rw [h]; rfl)
  have hupload : ∀ fn, uploadImageToWordPress env req.suggestedImage fn = none := by
    intro fn
    rcases hfail with hf | hu
    · simp [uploadImageToWordPress, hf]
    · unfold uploadImageToWordPress
      rcases env.imageFetch req.suggestedImage with _ | blob
      · rfl
      · exact hu blob fn
  by_cases hup : env.updateOk <;>
    simp [publishPOST, h1, himg, hupload, updateWordPressPostPayload, hup]

/-- Witness for C3 at the sample environment (image fetch always fails,
update succeeds) and the sample request. -/
theorem publish_media_failure_nonfatal_witness :
    (publishPOST true samplePublishEnv samplePublishReq).2.uploadAttempted =
      some samplePublishReq.suggestedImage ∧
    (∃ u, (publishPOST true samplePublishEnv samplePublishReq).2.updateCalled = some u ∧
      u.featured_media = none) ∧
    (publishPOST true samplePublishEnv samplePublishReq).1.1.success = true := by
  have h := publish_media_failure_nonfatal samplePublishEnv samplePublishReq
    (by decide) (Or.inl rfl)
  exact ⟨h.1, h.2.2.1, h.2.2.2⟩

end ClaimC3

section ClaimC10

/-- C10: for a well-formed SEO-save request (credentials present, truthy
`postId`), the response — status, success flag and echoed data — is the same
for any two remote environments; in particular it is identical whether every
remote write fails or every write succeeds, and it always reports
`success := true` with the echoed request data.  Only the trace of fallback
writes (the second component) depends on the environment. -/
theorem seoSave_success_regardless_of_remote (env1 env2 : SeoEnv)
    (req : SeoRequest) (hpid : req.postId ≠ 0) :
    (seoSavePOST true env1 req).1 = (seoSavePOST true env2 req).1 ∧
    (seoSavePOST true env1 req).1.1.success = true ∧
    (seoSavePOST true env1 req).1.1.status = 200 ∧
    (seoSavePOST true env1 req).1.2 =
      some { postId := req.postId, seoTitle := req.seoTitle,
             seoDescription := req.seoDescription, keyword := req.keyword } := by
  refine ⟨?_, ?_, ?_, ?_⟩ <;> simp [seoSavePOST, hpid]

/-- Witness for C10: the all-writes-fail environment and the all-writes-ok
environment produce the very same successful response for a concrete
request. -/
theorem seoSave_success_regardless_witness :
    (seoSavePOST true seoEnvAllFail ⟨5, some ['T'], none, some ['k'], none⟩).1 =
      (seoSavePOST true seoEnvAllOk ⟨5, some ['T'], none, some ['k'], none⟩).1 ∧
    (seoSavePOST true seoEnvAllFail ⟨5, some ['T'], none, some ['k'], none⟩).1.1.success =
      true := by
  have h := seoSave_success_regardless_of_remote seoEnvAllFail seoEnvAllOk
    ⟨5, some ['T'], none, some ['k'], none⟩ (by decide)
  exact ⟨h.1, h.2.1⟩

end ClaimC10
